import Mathlib

/-!
Shallow embedding of `src/submissions/cpp/solution.cpp`.

The program reads lines from the first openable file among a fixed candidate
list, splits each line at the first `'='`, parses the substring after the
delimiter with `std::stod`, pushes the parsed value onto a per-key vector in
a `std::map<std::string, std::vector<double>>`, and finally prints, for every
key in the map's (sorted) iteration order, the line
`key=min/mean/max` with one fractional digit.

Modelling decisions:
* `double` is modelled as `ℚ` (exact arithmetic; the concrete inputs used in
  the witnesses are exactly representable and exactly computed in binary64,
  so the model agrees with the program on them).
* `std::stod` is modelled on its decimal subset (optional leading whitespace,
  optional sign, decimal digits with an optional fractional part, an optional
  well-formed exponent); hexadecimal, `inf` and `nan` inputs are outside the
  model.  `std::stod` throws `std::invalid_argument` when no conversion is
  possible; the model returns `none` and the uncaught exception is modelled
  as the `crashed` outcome (the process aborts before printing anything).
* `std::map` with its sorted iteration is modelled as an association list
  kept sorted by key (`mapInsert`); `vector::push_back` appends to the list
  of retained values.
* `std::getline` is abstracted by taking the file content as its list of
  lines.
* Stream formatting with `std::fixed << std::setprecision(1)` is modelled by
  rounding to the nearest tenth, ties to even (the model does not reproduce
  the IEEE `-0.0` rendering for tiny negative means; no claim touches it).
-/

namespace Billions

/-- Whitespace characters skipped by `strtod` before the number. -/
def isSpaceChar (c : Char) : Bool :=
  c = ' ' || c = '\t' || c = '\n' || c = '\x0b' || c = '\x0c' || c = '\r'

/-- Numeric value of a decimal digit character, `none` otherwise. -/
def digitVal (c : Char) : Option ℕ :=
  if '0' ≤ c ∧ c ≤ '9' then some (c.toNat - '0'.toNat) else none

/-- Consume a maximal run of decimal digits. -/
def takeDigits : List Char → List ℕ × List Char
  | [] => ([], [])
  | c :: rest =>
    match digitVal c with
    | none => ([], c :: rest)
    | some d =>
      let p := takeDigits rest
      (d :: p.1, p.2)

/-- Value of a digit list read most-significant first. -/
def digitsToNat (ds : List ℕ) : ℕ := ds.foldl (fun a d => 10 * a + d) 0

/-- Consume an optional sign, returning `-1` for `'-'` and `1` otherwise. -/
def splitSign : List Char → ℤ × List Char
  | '+' :: r => (1, r)
  | '-' :: r => (-1, r)
  | s => (1, s)

/-- Exponent part after an `e`/`E` has been consumed; a malformed exponent
(no digits) is not consumed by `strtod`, leaving exponent `0`. -/
def parseExpTail (r : List Char) : ℤ :=
  let p := splitSign r
  let q := takeDigits p.2
  if q.1 = [] then 0 else p.1 * digitsToNat q.1

/-- Optional exponent of the `strtod` grammar. -/
def parseExp : List Char → ℤ
  | 'e' :: r => parseExpTail r
  | 'E' :: r => parseExpTail r
  | _ => 0

/-- Model of `std::stod` on the decimal subset of the `strtod` grammar:
skip leading whitespace, optional sign, digits with optional fractional
part (at least one digit overall), optional exponent.  Trailing characters
after the parsed prefix are ignored, exactly as `std::stod` ignores them.
`none` models the `std::invalid_argument` throw when no digits can be
consumed. -/
def stod? (s : List Char) : Option ℚ :=
  let s1 := s.dropWhile (fun c => isSpaceChar c)
  let p := splitSign s1
  let ip := takeDigits p.2
  let fp := match ip.2 with
    | '.' :: r => takeDigits r
    | _ => ([], ip.2)
  if ip.1 = [] ∧ fp.1 = [] then none
  else
    some ((p.1 : ℚ) * ((digitsToNat (ip.1 ++ fp.1) : ℚ) / (10 : ℚ) ^ fp.1.length)
      * (10 : ℚ) ^ parseExp fp.2)

/-- Model of `line.find('=')` followed by the two `substr` calls: `none` when the
delimiter is absent (`pos == npos`), otherwise the key (before the first
`'='`) and the raw value (after it). -/
def splitLine : List Char → Option (List Char × List Char)
  | [] => none
  | c :: rest =>
    if c = '=' then some ([], rest)
    else
      match splitLine rest with
      | none => none
      | some p => some (c :: p.1, p.2)

/-- What the loop body does with one line: skip it (no delimiter), abort the
process (uncaught `std::invalid_argument` from `std::stod`), or produce a
record. -/
inductive LineResult where
  | skip : LineResult
  | crash : LineResult
  | record : String → ℚ → LineResult
deriving DecidableEq

/-- Per-line behaviour of the `while (std::getline...)` body. -/
def parseLine (l : String) : LineResult :=
  match splitLine l.toList with
  | none => .skip
  | some p =>
    match stod? p.2 with
    | none => .crash
    | some q => .record (String.mk p.1) q

/-- Run the read loop over all lines: `some recs` with the valid records in
input order when the loop completes, `none` when `std::stod` throws and the
process aborts. -/
def processLines : List String → Option (List (String × ℚ))
  | [] => some []
  | l :: rest =>
    match parseLine l with
    | .skip => processLines rest
    | .crash => none
    | .record k v => (processLines rest).map (fun rs => (k, v) :: rs)

/-- The valid records of an input (lines with a delimiter and a parseable
value), irrespective of whether the program survives to process them all. -/
def validRecords (lines : List String) : List (String × ℚ) :=
  lines.filterMap (fun l =>
    match parseLine l with
    | .record k v => some (k, v)
    | _ => none)

/-- Model of `stations[station].push_back(temp)` on `std::map`: an
association list kept sorted ascending by key.  A fresh key is inserted at
its sorted position with a one-element vector; an existing key has the value
appended to its vector. -/
def mapInsert (k : String) (v : ℚ) : List (String × List ℚ) → List (String × List ℚ)
  | [] => [(k, [v])]
  | e :: rest =>
    if k = e.1 then (e.1, e.2 ++ [v]) :: rest
    else if k < e.1 then (k, [v]) :: e :: rest
    else e :: mapInsert k v rest

/-- The `stations` map after all records have been inserted in input order. -/
def buildStations (recs : List (String × ℚ)) : List (String × List ℚ) :=
  recs.foldl (fun m r => mapInsert r.1 r.2 m) []

/-- Keys of the stations map, in iteration order. -/
def keys (m : List (String × List ℚ)) : List String := m.map Prod.fst

/-- Total number of values retained in the per-key vectors: the model's
proportional analogue of the memory held beyond the map structure itself. -/
def retainedCount (m : List (String × List ℚ)) : ℕ :=
  (m.map (fun p => p.2.length)).sum

/-- Model of `*std::minmax_element(...).first` on a non-empty vector (the `0` default
is never reached: every vector in the map is non-empty). -/
def listMin : List ℚ → ℚ
  | [] => 0
  | x :: xs => xs.foldl min x

/-- Model of `*std::minmax_element(...).second`, same convention as `listMin`. -/
def listMax : List ℚ → ℚ
  | [] => 0
  | x :: xs => xs.foldl max x

/-- Model of `std::accumulate(temps.begin(), temps.end(), 0.0)`. -/
def vsum (xs : List ℚ) : ℚ := xs.foldl (· + ·) 0

/-- Model of `accumulate(...) / temps.size()`. -/
def vmean (xs : List ℚ) : ℚ := vsum xs / (xs.length : ℚ)

/-- Floor of a rational (numerator `ediv` denominator; the denominator is
positive). -/
def ratFloor (q : ℚ) : ℤ := Int.ediv q.num (q.den : ℤ)

/-- Round to the nearest integer, ties to even. -/
def roundHalfEven (q : ℚ) : ℤ :=
  if q - (ratFloor q : ℚ) < 1 / 2 then ratFloor q
  else if 1 / 2 < q - (ratFloor q : ℚ) then ratFloor q + 1
  else if ratFloor q % 2 = 0 then ratFloor q else ratFloor q + 1

/-- Rendering of a value under `std::fixed << std::setprecision(1)`. -/
def formatFixed1 (q : ℚ) : String :=
  (if roundHalfEven (q * 10) < 0 then "-" else "")
    ++ toString ((roundHalfEven (q * 10)).natAbs / 10) ++ "."
    ++ toString ((roundHalfEven (q * 10)).natAbs % 10)

/-- One line of the report: `station=min/mean/max`. -/
def reportLine (k : String) (vs : List ℚ) : String :=
  k ++ "=" ++ formatFixed1 (listMin vs) ++ "/" ++ formatFixed1 (vmean vs)
    ++ "/" ++ formatFixed1 (listMax vs)

/-- The report loop over the map in iteration (sorted) order. -/
def reportLines (m : List (String × List ℚ)) : List String :=
  m.map (fun e => reportLine e.1 e.2)

/-- How a run of the process ends. -/
inductive Outcome where
  | success : Outcome
  | noInput : Outcome
  | crashed : Outcome
deriving DecidableEq

/-- Observable behaviour of one run: how it ended and what it wrote to the
two streams.  Runtime diagnostics printed by `std::terminate` on the uncaught
exception are not modelled. -/
structure ProgOutput where
  outcome : Outcome
  stdout : List String
  stderr : List String
deriving DecidableEq

/-- Process exit status: `0` on success, `1` for the missing-input path
(`return 1`), and a non-zero abort status for the uncaught exception. -/
def exitCode : Outcome → ℕ
  | .success => 0
  | .noInput => 1
  | .crashed => 134

/-- The candidate input files tried in order. -/
def inputFiles : List String :=
  ["data/measurements_1m.txt", "data/measurements.txt", "data/test_measurements.txt"]

/-- The whole run of `main` on the content of the chosen file. -/
def runOnContent (lines : List String) : ProgOutput :=
  match processLines lines with
  | none => ⟨.crashed, [], []⟩
  | some recs => ⟨.success, reportLines (buildStations recs), []⟩

/-- Model of the `for (filename : input_files) file.open(...)` loop: content of the
first candidate the filesystem can open. -/
def openFirst (fs : String → Option (List String)) : List String → Option (List String)
  | [] => none
  | n :: rest =>
    match fs n with
    | some c => some c
    | none => openFirst fs rest

/-- The whole of `main`, parameterised by the filesystem (a map from file name to the
lines of its content, `none` when the file cannot be opened). -/
def run (fs : String → Option (List String)) : ProgOutput :=
  match openFirst fs inputFiles with
  | none => ⟨.noInput, [], ["Error: Could not open file"]⟩
  | some lines => runOnContent lines

/-! ### Helper lemmas about the fixed-point formatter -/

theorem ratFloor_intCast (n : ℤ) : ratFloor (n : ℚ) = n := by
  unfold ratFloor
  rw [Rat.num_intCast, Rat.den_intCast, Nat.cast_one]
  exact Int.ediv_one n

theorem roundHalfEven_intCast (n : ℤ) : roundHalfEven (n : ℚ) = n := by
  unfold roundHalfEven
  rw [ratFloor_intCast]
  norm_num

theorem formatFixed1_ofTenths (v : ℚ) (n : ℤ) (h : v * 10 = (n : ℚ)) :
    formatFixed1 v =
      (if n < 0 then "-" else "") ++ toString (n.natAbs / 10) ++ "."
        ++ toString (n.natAbs % 10) := by
  unfold formatFixed1
  rw [h, roundHalfEven_intCast]

theorem fmt_one : formatFixed1 1 = "1.0" := by
  rw [formatFixed1_ofTenths 1 10 (by norm_num)]; decide

theorem fmt_threeHalves : formatFixed1 (3 / 2) = "1.5" := by
  rw [formatFixed1_ofTenths (3 / 2) 15 (by norm_num)]; decide

theorem fmt_two : formatFixed1 2 = "2.0" := by
  rw [formatFixed1_ofTenths 2 20 (by norm_num)]; decide

theorem fmt_five : formatFixed1 5 = "5.0" := by
  rw [formatFixed1_ofTenths 5 50 (by norm_num)]; decide

theorem fmt_fifteenHalves : formatFixed1 (15 / 2) = "7.5" := by
  rw [formatFixed1_ofTenths (15 / 2) 75 (by norm_num)]; decide

theorem fmt_ten : formatFixed1 10 = "10.0" := by
  rw [formatFixed1_ofTenths 10 100 (by norm_num)]; decide

theorem fmt_twenty : formatFixed1 20 = "20.0" := by
  rw [formatFixed1_ofTenths 20 200 (by norm_num)]; decide

theorem stod_fiveOh : stod? "5.0".toList = some 5 := by
  simp +decide [stod?, isSpaceChar, splitSign, takeDigits, digitVal, digitsToNat,
    parseExp, parseExpTail]
  norm_num

/-! ### Structural lemmas about the stations map -/

@[simp] theorem keys_nil : keys [] = [] := rfl

@[simp] theorem keys_cons (e : String × List ℚ) (m : List (String × List ℚ)) :
    keys (e :: m) = e.1 :: keys m := rfl

theorem keys_mapInsert (a k : String) (v : ℚ) (m : List (String × List ℚ)) :
    a ∈ keys (mapInsert k v m) ↔ a = k ∨ a ∈ keys m := by
  induction m with
  | nil => simp [mapInsert]
  | cons e rest ih =>
    by_cases h1 : k = e.1
    · subst h1
      simp [mapInsert]
    · by_cases h2 : k < e.1
      · simp [mapInsert, h1, h2]
      · simp [mapInsert, h1, h2, ih]
        tauto

theorem sorted_keys_mapInsert (k : String) (v : ℚ) (m : List (String × List ℚ))
    (h : (keys m).Sorted (· < ·)) : (keys (mapInsert k v m)).Sorted (· < ·) := by
  induction m with
  | nil => simp [mapInsert]
  | cons e rest ih =>
    rw [keys_cons, List.sorted_cons] at h
    by_cases h1 : k = e.1
    · subst h1
      simpa [mapInsert, List.sorted_cons] using h
    · by_cases h2 : k < e.1
      · simp only [mapInsert, if_neg h1, if_pos h2, keys_cons, List.sorted_cons]
        exact ⟨fun b hb => by
          rcases List.mem_cons.mp hb with rfl | hb'
          · exact h2
          · exact h2.trans (h.1 b hb'), h.1, h.2⟩
      · have h3 : e.1 < k := by
          rcases lt_trichotomy k e.1 with h' | h' | h'
          · exact absurd h' h2
          · exact absurd h' h1
          · exact h'
        simp only [mapInsert, if_neg h1, if_neg h2, keys_cons, List.sorted_cons]
        refine ⟨fun b hb => ?_, ih h.2⟩
        rcases (keys_mapInsert b k v rest).mp hb with rfl | hb'
        · exact h3
        · exact h.1 b hb'

theorem mapInsert_snd_ne_nil (k : String) (v : ℚ) :
    ∀ (m : List (String × List ℚ)), (∀ p ∈ m, p.2 ≠ []) →
      ∀ p ∈ mapInsert k v m, p.2 ≠ [] := by
  intro m
  induction m with
  | nil =>
    intro _ p hp
    simp [mapInsert] at hp
    simp [hp]
  | cons e rest ih =>
    intro h p hp
    by_cases h1 : k = e.1
    · subst h1
      simp only [mapInsert, if_pos rfl] at hp
      rcases List.mem_cons.mp hp with rfl | hp'
      · simp
      · exact h p (List.mem_cons_of_mem _ hp')
    · by_cases h2 : k < e.1
      · simp only [mapInsert, if_neg h1, if_pos h2] at hp
        rcases List.mem_cons.mp hp with rfl | hp'
        · simp
        · exact h p hp'
      · simp only [mapInsert, if_neg h1, if_neg h2] at hp
        rcases List.mem_cons.mp hp with rfl | hp'
        · exact h _ (List.mem_cons_self _ _)
        · exact ih (fun q hq => h q (List.mem_cons_of_mem _ hq)) p hp'

theorem retainedCount_mapInsert (k : String) (v : ℚ) (m : List (String × List ℚ)) :
    retainedCount (mapInsert k v m) = retainedCount m + 1 := by
  induction m with
  | nil => simp [mapInsert, retainedCount]
  | cons e rest ih =>
    by_cases h1 : k = e.1
    · subst h1
      simp [mapInsert, retainedCount]
      omega
    · by_cases h2 : k < e.1
      · simp [mapInsert, h1, h2, retainedCount]
        omega
      · simp [mapInsert, h1, h2, retainedCount] at ih ⊢
        omega

theorem mem_keys_foldl (recs : List (String × ℚ)) :
    ∀ (m : List (String × List ℚ)) (a : String),
      a ∈ keys (recs.foldl (fun m r => mapInsert r.1 r.2 m) m)
        ↔ a ∈ keys m ∨ a ∈ recs.map Prod.fst := by
  induction recs with
  | nil => simp
  | cons r rest ih =>
    intro m a
    simp only [List.foldl_cons, List.map_cons, List.mem_cons]
    rw [ih, keys_mapInsert]
    tauto

theorem sorted_keys_foldl (recs : List (String × ℚ)) :
    ∀ m : List (String × List ℚ), (keys m).Sorted (· < ·) →
      (keys (recs.foldl (fun m r => mapInsert r.1 r.2 m) m)).Sorted (· < ·) := by
  induction recs with
  | nil => exact fun m h => h
  | cons r rest ih =>
    intro m h
    simp only [List.foldl_cons]
    exact ih _ (sorted_keys_mapInsert r.1 r.2 m h)

theorem snd_ne_nil_foldl (recs : List (String × ℚ)) :
    ∀ m : List (String × List ℚ), (∀ p ∈ m, p.2 ≠ []) →
      ∀ p ∈ recs.foldl (fun m r => mapInsert r.1 r.2 m) m, p.2 ≠ [] := by
  induction recs with
  | nil => exact fun m h => h
  | cons r rest ih =>
    intro m h
    simp only [List.foldl_cons]
    exact ih _ (mapInsert_snd_ne_nil r.1 r.2 m h)

theorem retainedCount_foldl (recs : List (String × ℚ)) :
    ∀ m : List (String × List ℚ),
      retainedCount (recs.foldl (fun m r => mapInsert r.1 r.2 m) m)
        = retainedCount m + recs.length := by
  induction recs with
  | nil => simp
  | cons r rest ih =>
    intro m
    simp only [List.foldl_cons, List.length_cons]
    rw [ih, retainedCount_mapInsert]
    omega

theorem mem_keys_buildStations (recs : List (String × ℚ)) (a : String) :
    a ∈ keys (buildStations recs) ↔ a ∈ recs.map Prod.fst := by
  unfold buildStations
  rw [mem_keys_foldl]
  simp

theorem sorted_buildStations (recs : List (String × ℚ)) :
    (keys (buildStations recs)).Sorted (· < ·) := by
  unfold buildStations
  exact sorted_keys_foldl recs [] (by simp)

theorem buildStations_snd_ne_nil (recs : List (String × ℚ)) :
    ∀ p ∈ buildStations recs, p.2 ≠ [] := by
  unfold buildStations
  exact snd_ne_nil_foldl recs [] (by simp)

theorem retainedCount_buildStations (recs : List (String × ℚ)) :
    retainedCount (buildStations recs) = recs.length := by
  unfold buildStations
  rw [retainedCount_foldl]
  simp [retainedCount]

/-! ### Lemmas about the read loop -/

theorem processLines_eq_validRecords :
    ∀ (lines : List String) (recs : List (String × ℚ)),
      processLines lines = some recs → recs = validRecords lines := by
  intro lines
  induction lines with
  | nil =>
    intro recs h
    simp [processLines] at h
    simp [validRecords, ← h]
  | cons l rest ih =>
    intro recs h
    cases hp : parseLine l with
    | skip =>
      simp only [processLines, hp] at h
      rw [ih recs h]
      simp [validRecords, List.filterMap_cons, hp]
    | crash => simp [processLines, hp] at h
    | record k v =>
      simp only [processLines, hp] at h
      rw [Option.map_eq_some'] at h
      obtain ⟨rs, hrs, hrecs⟩ := h
      rw [← hrecs, ih rs hrs]
      simp [validRecords, List.filterMap_cons, hp]

theorem runOnContent_of_processLines (lines : List String) (recs : List (String × ℚ))
    (h : processLines lines = some recs) :
    runOnContent lines = ⟨.success, reportLines (buildStations recs), []⟩ := by
  simp [runOnContent, h]

theorem splitLine_eq_none (s : List Char) (h : ∀ c ∈ s, c ≠ '=') :
    splitLine s = none := by
  induction s with
  | nil => rfl
  | cons c rest ih =>
    have hc : ¬(c = '=') := h c (by simp)
    simp [splitLine, hc, ih (fun c' hc' => h c' (by simp [hc']))]

theorem processLines_append_skip (l : String) (hl : parseLine l = .skip) :
    ∀ (pre post : List String),
      processLines (pre ++ l :: post) = processLines (pre ++ post) := by
  intro pre
  induction pre with
  | nil =>
    intro post
    simp [processLines, hl]
  | cons p pre ih =>
    intro post
    simp only [List.cons_append]
    cases hp : parseLine p <;> simp [processLines, hp, ih]

/-! ### Claim C3 -/

/-- C3 fails on the code: the map stores every parsed value
(`stations[station].push_back(temp)`), so on the three records `A=1.0`,
`A=2.0`, `A=3.0` the map retains 3 values while there is only 1 distinct
key — the retained count is not bounded by the distinct-key count. -/
theorem C3_counterexample :
    ¬ (retainedCount (buildStations (validRecords ["A=1.0", "A=2.0", "A=3.0"]))
        ≤ (keys (buildStations (validRecords ["A=1.0", "A=2.0", "A=3.0"]))).length) := by
  decide

/-- C3 amended: the aggregator retains every parsed value in memory — the
number of retained records equals the total number of valid records, so it
grows with the record count rather than being bounded by the distinct-key
count. -/
theorem C3_retains_every_value (recs : List (String × ℚ)) :
    retainedCount (buildStations recs) = recs.length :=
  retainedCount_buildStations recs

/-! ### Claim C5 -/

/-- C5 fails on the code as universally stated: on the input `A=1.0`,
`B=abc` the program aborts inside `std::stod` before any reporting, so the
output contains no line at all even though `A` is the key of a valid
record. -/
theorem C5_counterexample :
    (runOnContent ["A=1.0", "B=abc"]).stdout = []
    ∧ (validRecords ["A=1.0", "B=abc"]).map Prod.fst = ["A"] := by
  constructor
  · decide
  · decide

/-- C5 amended: for every input on which the read loop completes (no line
with a delimiter has an unparseable value), the report keys are exactly the
distinct keys of the valid records, each key appears exactly once (the key
list is duplicate-free), and the keys — hence the output lines — are sorted
ascending in lexicographic order. -/
theorem C5_report_keys (lines : List String) (recs : List (String × ℚ))
    (h : processLines lines = some recs) :
    (runOnContent lines).stdout = reportLines (buildStations recs)
    ∧ recs = validRecords lines
    ∧ (keys (buildStations recs)).Sorted (· < ·)
    ∧ (keys (buildStations recs)).Nodup
    ∧ ∀ k, k ∈ keys (buildStations recs) ↔ k ∈ recs.map Prod.fst := by
  refine ⟨?_, processLines_eq_validRecords lines recs h, sorted_buildStations recs, ?_, ?_⟩
  · rw [runOnContent_of_processLines lines recs h]
  · exact (sorted_buildStations recs).imp ne_of_lt
  · exact fun k => mem_keys_buildStations recs k

theorem C5_witness :
    processLines ["garbage", "A=1"] = some [("A", 1)]
    ∧ ((runOnContent ["garbage", "A=1"]).stdout
          = reportLines (buildStations [("A", 1)])
        ∧ [("A", (1 : ℚ))] = validRecords ["garbage", "A=1"]
        ∧ (keys (buildStations [("A", 1)])).Sorted (· < ·)
        ∧ (keys (buildStations [("A", 1)])).Nodup
        ∧ ∀ k, k ∈ keys (buildStations [("A", 1)]) ↔ k ∈ [("A", (1 : ℚ))].map Prod.fst) :=
  ⟨by
    simp +decide [processLines, parseLine, splitLine, stod?, isSpaceChar, splitSign,
      takeDigits, digitVal, digitsToNat, parseExp, parseExpTail],
   C5_report_keys ["garbage", "A=1"] [("A", 1)] (by
    simp +decide [processLines, parseLine, splitLine, stod?, isSpaceChar, splitSign,
      takeDigits, digitVal, digitsToNat, parseExp, parseExpTail])⟩

/-! ### Claim C7 -/

/-- C7: a line containing no `'='` is silently skipped: the whole run on any
input with such a line inserted is identical (same outcome, same streams) to
the run on the input without it. -/
theorem C7_no_delimiter_skipped (pre post : List String) (l : String)
    (h : ∀ c ∈ l.toList, c ≠ '=') :
    runOnContent (pre ++ l :: post) = runOnContent (pre ++ post) := by
  have hl : parseLine l = .skip := by
    have hsl : splitLine l.data = none := splitLine_eq_none l.data h
    simp [parseLine, String.toList, hsl]
  unfold runOnContent
  rw [processLines_append_skip l hl pre post]

theorem C7_witness :
    (∀ c ∈ ("garbage" : String).toList, c ≠ '=')
    ∧ runOnContent (["A=1.0"] ++ "garbage" :: ["B=2.0"])
        = runOnContent (["A=1.0"] ++ ["B=2.0"]) :=
  ⟨by decide, C7_no_delimiter_skipped ["A=1.0"] ["B=2.0"] "garbage" (by decide)⟩

/-! ### Claim C1 -/

/-- C1 fails on the code: the program's delimiter is the hard-coded `'='` of
`line.find('=')`, not `';'`.  On the three lines `A;10.0`, `B;20.0`, `A;5.0`
every line lacks the delimiter, is skipped, and the program prints nothing,
not the two claimed report lines. -/
theorem C1_counterexample :
    (runOnContent ["A;10.0", "B;20.0", "A;5.0"]).stdout
      ≠ ["A=5.0/7.5/10.0", "B=20.0/20.0/20.0"] := by
  decide

/-- C1 amended: with the program's actual delimiter `'='`, the input of the
three lines `A=10.0`, `B=20.0`, `A=5.0` yields exactly the line
`A=5.0/7.5/10.0` followed by the line `B=20.0/20.0/20.0`, and the run
succeeds with exit code 0. -/
theorem C1_scenarioA :
    runOnContent ["A=10.0", "B=20.0", "A=5.0"]
      = ⟨.success, ["A=5.0/7.5/10.0", "B=20.0/20.0/20.0"], []⟩
    ∧ exitCode .success = 0 := by
  constructor
  · simp +decide [runOnContent, processLines, parseLine, splitLine, stod?, isSpaceChar,
      splitSign, takeDigits, digitVal, digitsToNat, parseExp, parseExpTail, buildStations,
      mapInsert, reportLines, reportLine, listMin, listMax, vmean, vsum]
    norm_num [min_def, max_def, fmt_five, fmt_fifteenHalves, fmt_ten, fmt_twenty]
    decide
  · rfl

/-! ### Claim C2 -/

/-- C2 is a code bug: on a line whose value substring is unparseable
(`A=abc`), `std::stod` throws `std::invalid_argument`, the exception is
never caught, and the process aborts without producing the report — it does
not skip the line and continue.  Removing the malformed line gives a normal
run that prints `B=1.0/1.0/1.0`, so the two runs do not produce the same
report as the claim requires. -/
theorem C2_crash_on_unparseable_value :
    runOnContent ["A=abc", "B=1.0"] = ⟨.crashed, [], []⟩
    ∧ runOnContent ["B=1.0"] = ⟨.success, ["B=1.0/1.0/1.0"], []⟩ := by
  constructor
  · decide
  · simp +decide [runOnContent, processLines, parseLine, splitLine, stod?, isSpaceChar,
      splitSign, takeDigits, digitVal, digitsToNat, parseExp, parseExpTail, buildStations,
      mapInsert, reportLines, reportLine, listMin, listMax, vmean, vsum]
    norm_num [fmt_one]
    decide

/-! ### Arithmetic lemmas for the per-key statistics -/

theorem foldl_min_le (xs : List ℚ) : ∀ x : ℚ, xs.foldl min x ≤ x := by
  induction xs with
  | nil => intro x; simp
  | cons y ys ih =>
    intro x
    simp only [List.foldl_cons]
    exact le_trans (ih (min x y)) (min_le_left x y)

theorem le_foldl_max (xs : List ℚ) : ∀ x : ℚ, x ≤ xs.foldl max x := by
  induction xs with
  | nil => intro x; simp
  | cons y ys ih =>
    intro x
    simp only [List.foldl_cons]
    exact le_trans (le_max_left x y) (ih (max x y))

theorem vsum_cons (x : ℚ) (xs : List ℚ) : vsum (x :: xs) = x + vsum xs := by
  suffices hshift : ∀ (a : ℚ) (ys : List ℚ), ys.foldl (· + ·) a = a + ys.foldl (· + ·) 0 by
    show (x :: xs).foldl (· + ·) 0 = x + vsum xs
    rw [List.foldl_cons, hshift (0 + x) xs]
    unfold vsum
    ring
  intro a ys
  induction ys generalizing a with
  | nil => simp
  | cons y ys ih =>
    simp only [List.foldl_cons]
    rw [ih (a + y), ih (0 + y)]
    ring

theorem foldl_min_mul_le (xs : List ℚ) :
    ∀ x : ℚ, (xs.foldl min x) * (xs.length + 1) ≤ x + vsum xs := by
  induction xs with
  | nil => intro x; simp [vsum]
  | cons y ys ih =>
    intro x
    have h1 := ih (min x y)
    have h2 := foldl_min_le ys (min x y)
    have h3 : min x y ≤ x := min_le_left x y
    have h4 : min x y ≤ y := min_le_right x y
    simp only [List.foldl_cons, List.length_cons]
    rw [vsum_cons]
    push_cast
    have hexp : ys.foldl min (min x y) * ((ys.length : ℚ) + 1 + 1)
        = ys.foldl min (min x y) * ((ys.length : ℚ) + 1) + ys.foldl min (min x y) := by
      ring
    rw [hexp]
    linarith

theorem le_foldl_max_mul (xs : List ℚ) :
    ∀ x : ℚ, x + vsum xs ≤ (xs.foldl max x) * (xs.length + 1) := by
  induction xs with
  | nil => intro x; simp [vsum]
  | cons y ys ih =>
    intro x
    have h1 := ih (max x y)
    have h2 := le_foldl_max ys (max x y)
    have h3 : x ≤ max x y := le_max_left x y
    have h4 : y ≤ max x y := le_max_right x y
    simp only [List.foldl_cons, List.length_cons]
    rw [vsum_cons]
    push_cast
    have hexp : ys.foldl max (max x y) * ((ys.length : ℚ) + 1 + 1)
        = ys.foldl max (max x y) * ((ys.length : ℚ) + 1) + ys.foldl max (max x y) := by
      ring
    rw [hexp]
    linarith

theorem listMin_le_vmean (x : ℚ) (xs : List ℚ) : listMin (x :: xs) ≤ vmean (x :: xs) := by
  have hlen : (0 : ℚ) < (x :: xs).length := by
    simp only [List.length_cons]
    push_cast
    positivity
  unfold vmean
  rw [le_div_iff₀ hlen]
  have h := foldl_min_mul_le xs x
  calc listMin (x :: xs) * ((x :: xs).length : ℚ)
      = (xs.foldl min x) * ((xs.length : ℚ) + 1) := by
        simp only [listMin, List.length_cons]; push_cast; ring
    _ ≤ x + vsum xs := h
    _ = vsum (x :: xs) := (vsum_cons x xs).symm

theorem vmean_le_listMax (x : ℚ) (xs : List ℚ) : vmean (x :: xs) ≤ listMax (x :: xs) := by
  have hlen : (0 : ℚ) < (x :: xs).length := by
    simp only [List.length_cons]
    push_cast
    positivity
  unfold vmean
  rw [div_le_iff₀ hlen]
  have h := le_foldl_max_mul xs x
  calc vsum (x :: xs) = x + vsum xs := vsum_cons x xs
    _ ≤ (xs.foldl max x) * ((xs.length : ℚ) + 1) := h
    _ = listMax (x :: xs) * ((x :: xs).length : ℚ) := by
        simp only [listMax, List.length_cons]; push_cast; ring

/-! ### Claim C4 -/

/-- C4: every entry of the stations map — hence every printed report entry —
is computed from at least one record (its vector is non-empty, so the count
used for the mean is ≥ 1) and satisfies `min ≤ mean ≤ max` exactly in the
rational model of the `double` arithmetic. -/
theorem C4_min_mean_max (recs : List (String × ℚ)) (k : String) (vs : List ℚ)
    (h : (k, vs) ∈ buildStations recs) :
    1 ≤ vs.length ∧ listMin vs ≤ vmean vs ∧ vmean vs ≤ listMax vs := by
  have hne : vs ≠ [] := buildStations_snd_ne_nil recs (k, vs) h
  cases vs with
  | nil => exact absurd rfl hne
  | cons x xs =>
    exact ⟨by simp, listMin_le_vmean x xs, vmean_le_listMax x xs⟩

theorem C4_witness :
    ("A", [(1 : ℚ)]) ∈ buildStations [("A", (1 : ℚ))]
    ∧ (1 ≤ [(1 : ℚ)].length
        ∧ listMin [(1 : ℚ)] ≤ vmean [(1 : ℚ)]
        ∧ vmean [(1 : ℚ)] ≤ listMax [(1 : ℚ)]) :=
  ⟨List.mem_singleton.mpr rfl,
   C4_min_mean_max [("A", (1 : ℚ))] "A" [(1 : ℚ)] (List.mem_singleton.mpr rfl)⟩

/-! ### Claim C6 -/

/-- C6: when the filesystem can open none of the three candidate input
files, the run takes the `NoInputAvailable` path: non-zero exit code (1),
the diagnostic `Error: Could not open file` on the error stream, and no
standard-output lines. -/
theorem C6_no_input (fs : String → Option (List String))
    (h : ∀ n ∈ inputFiles, fs n = none) :
    run fs = ⟨.noInput, [], ["Error: Could not open file"]⟩
    ∧ exitCode (run fs).outcome ≠ 0 := by
  have h1 : fs "data/measurements_1m.txt" = none := h _ (by simp [inputFiles])
  have h2 : fs "data/measurements.txt" = none := h _ (by simp [inputFiles])
  have h3 : fs "data/test_measurements.txt" = none := h _ (by simp [inputFiles])
  have hopen : openFirst fs inputFiles = none := by
    simp [openFirst, inputFiles, h1, h2, h3]
  have hrun : run fs = ⟨.noInput, [], ["Error: Could not open file"]⟩ := by
    simp [run, hopen]
  exact ⟨hrun, by rw [hrun]; decide⟩

theorem C6_witness :
    (∀ n ∈ inputFiles, (fun _ => (none : Option (List String))) n = none)
    ∧ (run (fun _ => none) = ⟨.noInput, [], ["Error: Could not open file"]⟩
        ∧ exitCode (run (fun _ => none)).outcome ≠ 0) :=
  ⟨fun _ _ => rfl, C6_no_input (fun _ => none) (fun _ _ => rfl)⟩

/-! ### Claim C8 -/

/-- C8: the run is a pure function of the filesystem contents — two runs
over filesystems that give every candidate file the same content produce the
same outcome, the same standard output, the same error stream, and the same
exit code. -/
theorem C8_deterministic (fs₁ fs₂ : String → Option (List String))
    (h : ∀ n, fs₁ n = fs₂ n) :
    run fs₁ = run fs₂
    ∧ exitCode (run fs₁).outcome = exitCode (run fs₂).outcome := by
  have heq : fs₁ = fs₂ := funext h
  subst heq
  exact ⟨rfl, rfl⟩

theorem C8_witness :
    (∀ n : String, (fun _ => (none : Option (List String))) n
        = (fun _ => (none : Option (List String))) n)
    ∧ (run (fun _ => none) = run (fun _ => none)
        ∧ exitCode (run (fun _ => none)).outcome
            = exitCode (run (fun _ => none)).outcome) :=
  ⟨fun _ => rfl, C8_deterministic (fun _ => none) (fun _ => none) (fun _ => rfl)⟩

/-! ### Claim C10 -/

theorem not_lt_empty (s : String) : ¬ s < "" := by
  intro hlt
  rw [String.lt_iff_toList_lt, String.toList_empty] at hlt
  exact List.Lex.not_nil_right _ _ hlt

theorem head_key_of_sorted_mem_empty (m : List (String × List ℚ))
    (hs : (keys m).Sorted (· < ·)) (hm : "" ∈ keys m) :
    (keys m).head? = some "" := by
  cases m with
  | nil => simp at hm
  | cons e rest =>
    rw [keys_cons] at hm hs ⊢
    rcases List.mem_cons.mp hm with h | h
    · rw [← h]
      rfl
    · exfalso
      rw [List.sorted_cons] at hs
      exact not_lt_empty e.1 (hs.1 _ h)

/-- C10: a line of the form `'='` followed by a parseable value is accepted
as a valid record with the empty string as key; the run then succeeds (given
the rest of the input parses), and since the empty string is minimal in the
lexicographic order, the empty-key entry is the first line of the report. -/
theorem C10_empty_key_first (s : List Char) (v : ℚ) (post : List String)
    (recs : List (String × ℚ)) (hs : stod? s = some v)
    (hp : processLines post = some recs) :
    parseLine (String.mk ('=' :: s)) = .record "" v
    ∧ processLines (String.mk ('=' :: s) :: post) = some (("", v) :: recs)
    ∧ (runOnContent (String.mk ('=' :: s) :: post)).outcome = .success
    ∧ (keys (buildStations (("", v) :: recs))).head? = some ""
    ∧ ∃ vs, (runOnContent (String.mk ('=' :: s) :: post)).stdout.head?
          = some (reportLine "" vs) := by
  have hsplit : splitLine ('=' :: s) = some ([], s) := by simp [splitLine]
  have hpl : parseLine (String.mk ('=' :: s)) = .record "" v := by
    simp [parseLine, String.toList, hsplit, hs]
  have hproc : processLines (String.mk ('=' :: s) :: post) = some (("", v) :: recs) := by
    simp [processLines, hpl, hp]
  have hhead : (keys (buildStations (("", v) :: recs))).head? = some "" := by
    apply head_key_of_sorted_mem_empty _ (sorted_buildStations _)
    rw [mem_keys_buildStations]
    simp
  refine ⟨hpl, hproc, by simp [runOnContent, hproc], hhead, ?_⟩
  have hst : (runOnContent (String.mk ('=' :: s) :: post)).stdout
      = reportLines (buildStations (("", v) :: recs)) := by
    simp [runOnContent, hproc]
  cases hb : buildStations (("", v) :: recs) with
  | nil => rw [hb] at hhead; simp at hhead
  | cons e rest =>
    rw [hb, keys_cons] at hhead
    have he : e.1 = "" := by simpa using hhead
    refine ⟨e.2, ?_⟩
    rw [hst, hb]
    simp [reportLines, he]

theorem C10_witness :
    stod? "5.0".toList = some 5
    ∧ processLines ([] : List String) = some []
    ∧ (parseLine (String.mk ('=' :: "5.0".toList)) = .record "" 5
        ∧ processLines [String.mk ('=' :: "5.0".toList)] = some [("", 5)]
        ∧ (runOnContent [String.mk ('=' :: "5.0".toList)]).outcome = .success
        ∧ (keys (buildStations [("", 5)])).head? = some ""
        ∧ ∃ vs, (runOnContent [String.mk ('=' :: "5.0".toList)]).stdout.head?
              = some (reportLine "" vs)) :=
  ⟨stod_fiveOh, rfl, C10_empty_key_first "5.0".toList 5 [] [] stod_fiveOh rfl⟩

/-! ### Claim C9 -/

/-- C9: a line whose value field is a valid numeric prefix followed by
trailing junk (`A=1.5abc`) is accepted, and the numeric prefix `1.5` is
aggregated: the run succeeds and reports `A=1.5/1.5/1.5`. -/
theorem C9_numeric_prefix_accepted :
    runOnContent ["A=1.5abc"] = ⟨.success, ["A=1.5/1.5/1.5"], []⟩ := by
  simp +decide [runOnContent, processLines, parseLine, splitLine, stod?, isSpaceChar,
    splitSign, takeDigits, digitVal, digitsToNat, parseExp, parseExpTail, buildStations,
    mapInsert, reportLines, reportLine, listMin, listMax, vmean, vsum]
  norm_num [fmt_threeHalves]
  decide

end Billions
